import Mathlib

/-!
Verification development for the `html-midi-player` fork (spessasynth backend).

Part 1 embeds the note-timing extractor `SpessaSynthPlayer.getNoteTimes`
(together with its helpers `noteOff` and `getTempo`) as executable Lean
functions over rationals.  JavaScript numbers are modelled as `ℚ`; the
in-place mutation of shared `NoteTime` objects (each note is pushed both to
`noteTimes[channel]` and to `unfinishedNotes[channel]`) is modelled by
storing, in the unfinished list, the index of the note inside its channel
list, so that closing a note updates the single underlying record.

Part 2 embeds the widget state machine of `src/player.ts` (seek handlers,
`_start` / `stop` / `handleStop`, the process-wide `playingPlayer`
exclusivity token, and the sound-font caching of `initPlayerNow`).
-/

namespace MidiPlayer

/-- A positional list update: `listModify xs i f` applies `f` to the `i`-th
element of `xs` (and is the identity when `i` is out of range).  This models
an in-place field mutation of the object stored at index `i`. -/
def listModify (xs : List α) (i : Nat) (f : α → α) : List α :=
  match xs, i with
  | [], _ => []
  | x :: t, 0 => f x :: t
  | x :: t, n + 1 => x :: listModify t n f

/-- Byte array with a read cursor, mirroring `IndexedByteArray` from
`spessasynth_lib` (a `Uint8Array` subclass carrying `currentIndex`). -/
structure IndexedByteArray where
  data : List Nat
  currentIndex : Nat
deriving Repr, DecidableEq, Inhabited

/-- A MIDI event, mirroring `MidiMessage` from `spessasynth_lib`. -/
structure MidiMessage where
  ticks : Nat
  messageStatusByte : Nat
  messageData : IndexedByteArray
deriving Repr, DecidableEq, Inhabited

/-- The parsed MIDI document, restricted to the fields `getNoteTimes`
reads: `timeDivision` and `tracks` (mirroring `BasicMIDI`). -/
structure BasicMIDI where
  timeDivision : Nat
  tracks : List (List MidiMessage)
deriving Repr, DecidableEq, Inhabited

/-- A note interval, mirroring the `NoteTime` record built by
`getNoteTimes` (`midiNote`, `start`, `length`, `velocity`). -/
structure NoteTime where
  midiNote : Nat
  start : ℚ
  length : ℚ
  velocity : ℚ
deriving Repr, DecidableEq, Inhabited

/-- Modelled from the declared interface of the external helper
`readBytesAsUintBigEndian(dataArray, bytesAmount)` of `spessasynth_lib`
(only its declaration is in the repository): it reads `n` bytes big-endian
starting at the cursor and advances the cursor by `n`. -/
def readBytesAsUintBigEndian (arr : IndexedByteArray) (n : Nat) :
    Nat × IndexedByteArray :=
  ((List.range n).foldl (fun acc k => acc * 256 + arr.data.getD (arr.currentIndex + k) 0) 0,
   { arr with currentIndex := arr.currentIndex + n })

/-- `getTempo(event)` from `getNoteTimes`: the event's `messageData` is
replaced by a fresh `IndexedByteArray` over the same bytes, its cursor is
reset to 0, three bytes are read big-endian, and the BPM value
`60000000 / value` is returned.  The second component is the new
`messageData` stored back into the (shared, hence mutated) event. -/
def getTempo (md : IndexedByteArray) : ℚ × IndexedByteArray :=
  let md0 : IndexedByteArray := { data := md.data, currentIndex := 0 }
  let r := readBytesAsUintBigEndian md0 3
  ((60000000 : ℚ) / (r.1 : ℚ), r.2)

/-- `const minNoteTime = 0.02` (seconds). -/
def minNoteTime : ℚ := 1 / 50

/-- The length written when a note is closed at distance `time` from its
start on channel `ch`: the source's
`(time < minNoteTime && channel === 9 ? minNoteTime : time)`. -/
def lengthAdjust (time : ℚ) (ch : Nat) : ℚ :=
  if time < minNoteTime ∧ ch = 9 then minNoteTime else time

/-- The loop state of `getNoteTimes`: the per-channel result lists, the
per-channel lists of indices of still-open notes, the `unfinished` counter
(an integer: the source decrements it even when no note matches), the
elapsed seconds and the current ticks-to-seconds factor. -/
structure ExtractState where
  noteTimes : List (List NoteTime)
  unfinishedNotes : List (List Nat)
  unfinished : Int
  elapsedTime : ℚ
  oneTickToSeconds : ℚ
deriving Repr, DecidableEq, Inhabited

/-- First index in `l` whose element satisfies `p`, mirroring JavaScript's
`Array.prototype.findIndex` (with `none` for `-1`). -/
def findIndexFn (p : α → Bool) : List α → Option Nat
  | [] => none
  | x :: t => if p x then some 0 else (findIndexFn p t).map (· + 1)

/-- The `noteOff` closure of `getNoteTimes`: find the first unfinished note
of this pitch on this channel (`findIndex`), set its length from the
current elapsed time (with the channel-9 floor), remove it from the
unfinished list, and decrement `unfinished` — the decrement happens even
when no note was found, exactly as in the source. -/
def noteOff (midiNote channel : Nat) (s : ExtractState) : ExtractState :=
  let chNotes := s.noteTimes.getD channel []
  let ulist := s.unfinishedNotes.getD channel []
  let s1 :=
    match findIndexFn (fun i =>
        match chNotes[i]? with
        | some n => n.midiNote == midiNote
        | none => false) ulist with
    | some k =>
      match ulist[k]? with
      | some idx =>
        let time := s.elapsedTime - ((chNotes[idx]?).getD default).start
        { s with
          noteTimes := listModify s.noteTimes channel (fun cn =>
            listModify cn idx (fun n => { n with length := lengthAdjust time channel })),
          unfinishedNotes := listModify s.unfinishedNotes channel (fun u => u.eraseIdx k) }
      | none => s
    | none => s
  { s1 with unfinished := s1.unfinished - 1 }

/-- Processing of a single event inside the `while` loop of
`getNoteTimes` (everything before the elapsed-time advance): note-off
(status `0x8`), note-on (status `0x9`, with velocity 0 treated as note-off
and a defensive close of any previous same-pitch note before opening), and
tempo change (`messageStatusByte === 0x51`, which mutates the event's
`messageData` through `getTempo`).  Returns the new state and the event as
it is left in the document. -/
def stepEvent (td : Nat) (s : ExtractState) (e : MidiMessage) :
    ExtractState × MidiMessage :=
  let status := e.messageStatusByte / 16
  let channel := e.messageStatusByte % 16
  if status = 8 then
    (noteOff (e.messageData.data.getD 0 0) channel s, e)
  else if status = 9 then
    if e.messageData.data[1]? = some 0 then
      (noteOff (e.messageData.data.getD 0 0) channel s, e)
    else
      let s1 := noteOff (e.messageData.data.getD 0 0) channel s
      let noteTime : NoteTime :=
        { midiNote := e.messageData.data.getD 0 0
          start := s.elapsedTime
          length := -1
          velocity := (e.messageData.data.getD 1 0 : ℚ) / 127 }
      let chNotes := s1.noteTimes.getD channel []
      ({ s1 with
         noteTimes := listModify s1.noteTimes channel (fun cn => cn ++ [noteTime])
         unfinishedNotes :=
           listModify s1.unfinishedNotes channel (fun u => u ++ [chNotes.length])
         unfinished := s1.unfinished + 1 }, e)
  else if e.messageStatusByte = 0x51 then
    let r := getTempo e.messageData
    ({ s with oneTickToSeconds := 60 / (r.1 * (td : ℚ)) },
     { e with messageData := r.2 })
  else (s, e)

/-- The event loop of `getNoteTimes`: process the current event, then (if
another event follows) advance `elapsedTime` by
`oneTickToSeconds * (nextEvent.ticks - event.ticks)` using the factor as
updated by the current event.  The second component collects the events as
the loop leaves them (tempo events are mutated in place in the source). -/
def runEvents (td : Nat) : ExtractState → List MidiMessage →
    ExtractState × List MidiMessage
  | s, [] => (s, [])
  | s, e :: rest =>
    let p := stepEvent td s e
    let s2 :=
      match rest with
      | [] => p.1
      | e2 :: _ =>
        { p.1 with elapsedTime :=
            p.1.elapsedTime + p.1.oneTickToSeconds * ((e2.ticks : ℚ) - (e.ticks : ℚ)) }
    let q := runEvents td s2 rest
    (q.1, p.2 :: q.2)

/-- The initial loop state: `elapsedTime = 0` and the 120 BPM default
`oneTickToSeconds = 60 / (120 * timeDivision)`, with 16 empty channel
lists. -/
def initialState (midi : BasicMIDI) : ExtractState :=
  { noteTimes := List.replicate 16 []
    unfinishedNotes := List.replicate 16 []
    unfinished := 0
    elapsedTime := 0
    oneTickToSeconds := 60 / (120 * (midi.timeDivision : ℚ)) }

/-- Stable insertion of an event into an already-sorted list: the event is
placed after every element with a strictly smaller tick and also after no
element with an equal tick that originally preceded it. -/
def insertByTicks (e : MidiMessage) : List MidiMessage → List MidiMessage
  | [] => [e]
  | x :: xs => if x.ticks < e.ticks then x :: insertByTicks e xs else e :: x :: xs

/-- `this.midi.tracks.flat()` followed by the stable
`events.sort((e1, e2) => e1.ticks - e2.ticks)` (JavaScript's sort is
required to be stable; any stable comparison sort produces the same list,
here a stable insertion sort). -/
def sortedEvents (midi : BasicMIDI) : List MidiMessage :=
  midi.tracks.flatten.foldr insertByTicks []

/-- The trailing pass of `getNoteTimes`: if `unfinished > 0`, every note
still in an unfinished list gets its length set from the final elapsed
time (with the channel-9 floor). -/
def finishChannel (elapsed : ℚ) (ch : Nat) (ulist : List Nat)
    (acc : List (List NoteTime)) : List (List NoteTime) :=
  ulist.foldl (fun acc2 idx =>
    listModify acc2 ch (fun cn =>
      listModify cn idx (fun n =>
        { n with length := lengthAdjust (elapsed - n.start) ch }))) acc

/-- The trailing pass of `getNoteTimes`, continued: fold `finishChannel`
over the 16 unfinished lists when `unfinished > 0`. -/
def finishUnfinished (s : ExtractState) : ExtractState :=
  if s.unfinished > 0 then
    let nt := s.unfinishedNotes.enum.foldl
      (fun acc chPair => finishChannel s.elapsedTime chPair.1 chPair.2 acc) s.noteTimes
    { s with noteTimes := nt }
  else s

/-- `getNoteTimes`, also returning the event objects as the pass leaves
them (the source mutates tempo events of the input document in place). -/
def getNoteTimesFull (midi : BasicMIDI) : List (List NoteTime) × List MidiMessage :=
  let p := runEvents midi.timeDivision (initialState midi) (sortedEvents midi)
  ((finishUnfinished p.1).noteTimes, p.2)

/-- `SpessaSynthPlayer.getNoteTimes`: one list of note intervals per MIDI
channel. -/
def getNoteTimes (midi : BasicMIDI) : List (List NoteTime) :=
  (getNoteTimesFull midi).1

/-!
Widget state machine (`src/player.ts`).

The audio backend (`SpessaSynthPlayer` wrapping the external
`Sequencer` of `spessasynth_lib`) is modelled from the spec's interface
description: it owns a transport position and a paused flag; `play()`
clears the flag, `pause()` sets it, assigning `currentTime` repositions
the transport and does not change the paused flag, and
`isPlaying = !seq.paused`.
-/

/-- Modelled from the spec: the external backend transport
(`Sequencer` seen through `SpessaSynthPlayer`): a position in seconds and
a paused flag; seeking does not change the play/pause state. -/
structure Backend where
  seqTime : ℚ
  paused : Bool
deriving Repr, DecidableEq, Inhabited

/-- Events dispatched by the widget (`start`, `stop {finished}`, `loop`,
`note`). -/
inductive PEvent where
  | start : PEvent
  | stop : Bool → PEvent
  | loopEv : PEvent
  | note : Nat → PEvent
deriving Repr, DecidableEq

/-- The state of one `PlayerElement` that the playback logic touches:
`_playing`, `seeking`, the `loop` attribute, the seek bar value and max
(the displayed position and the duration), and the backend player. -/
structure Widget where
  playing : Bool
  seeking : Bool
  loopAttr : Bool
  seekBarValue : ℚ
  seekBarMax : ℚ
  player : Option Backend
deriving Repr, DecidableEq

instance : Inhabited Widget :=
  ⟨{ playing := false, seeking := false, loopAttr := false,
     seekBarValue := 0, seekBarMax := 0, player := none }⟩

/-- The `currentTime` setter of `PlayerElement`: write the seek bar value
(and time label), and forward the position to the backend only when
`this.player && this.player.isPlaying`. -/
def setCurrentTime (w : Widget) (v : ℚ) : Widget :=
  let w1 := { w with seekBarValue := v }
  match w1.player with
  | some p => if !p.paused then { w1 with player := some { p with seqTime := v } } else w1
  | none => w1

/-- The seek bar `input` handler: set the `seeking` flag and pause the
backend if it is playing. -/
def seekInput (w : Widget) : Widget :=
  let w1 := { w with seeking := true }
  match w1.player with
  | some p => if !p.paused then { w1 with player := some { p with paused := true } } else w1
  | none => w1

/-- The seek bar `change` handler: read the released position from the
seek bar; if the backend is playing, commit the position and (if the
assignment paused it) resume; finally clear `seeking`.  All of this is
guarded by `this.player.isPlaying`, exactly as in the source. -/
def seekChange (w : Widget) : Widget :=
  let time := w.seekBarValue
  let w1 :=
    match w.player with
    | some p =>
      if !p.paused then
        let w2 := { w with player := some { p with seqTime := time } }
        match w2.player with
        | some p2 => if p2.paused then { w2 with player := some { p2 with paused := false } } else w2
        | none => w2
      else w
    | none => w
  { w1 with seeking := false }

/-- `noteCallback`: ignore when not `_playing`; dispatch the `note` event;
unless `seeking`, copy the backend position into the seek bar and label. -/
def noteCallback (w : Widget) (n : Nat) : Widget × List PEvent :=
  if !w.playing then (w, [])
  else if w.seeking then (w, [PEvent.note n])
  else
    match w.player with
    | some p => ({ w with seekBarValue := p.seqTime }, [PEvent.note n])
    | none => (w, [PEvent.note n])

/-- The process-wide state: all widget instances and the module-level
`playingPlayer` reference (modelled as an index into the list). -/
structure GState where
  widgets : List Widget
  playingPlayer : Option Nat
deriving Repr, DecidableEq, Inhabited

def getW (g : GState) (i : Nat) : Widget := g.widgets.getD i default

def setW (g : GState) (i : Nat) (w : Widget) : GState :=
  { g with widgets := g.widgets.set i w }

/-!
`_start`, `stop` and `handleStop` of `PlayerElement`, as one mutual
definition.  The three methods call each other in a cycle
(`handleStop(true)` with the loop flag calls `_start(true)`, which calls
`handleStop(true)` again); the cycle provably stops after a bounded number
of hops, which Lean cannot see structurally, so a fuel argument is
threaded through.  Fuel 4 is enough for every entry point: no reachable
run ever consumes the fuel (the innermost restart finds the backend
already playing and does nothing).
-/

mutual

/-- `PlayerElement._start(looped)` with fuel. -/
def startFuel : Nat → GState → Nat → Bool → GState × List (Nat × PEvent)
  | 0, g, _, _ => (g, [])
  | fuel + 1, g, i, looped =>
    let w := getW g i
    match w.player with
    | none => (g, [])
    | some p =>
      if p.paused then
        let r1 :=
          match g.playingPlayer with
          | some j =>
            if (getW g j).playing ∧ ¬(j = i ∧ looped) then stopFuel fuel g j else (g, [])
          | none => (g, [])
        let g2 := { r1.1 with playingPlayer := some i }
        let w2 := getW g2 i
        let g3 := setW g2 i (setCurrentTime { w2 with playing := true } 0)
        let w4 := getW g3 i
        let g4 :=
          match w4.player with
          | some p4 => setW g3 i { w4 with player := some { p4 with paused := false } }
          | none => g3
        let evs2 := if looped then [(i, PEvent.loopEv)] else [(i, PEvent.start)]
        let r3 := handleStopFuel fuel g4 i true
        (r3.1, r1.2 ++ evs2 ++ r3.2)
      else
        -- `else if (!this.player.isPlaying)`: same condition again, kept
        -- verbatim from the source (it is unreachable there too).
        if p.paused then
          (setW g i { w with player := some { p with paused := false } }, [])
        else (g, [])

/-- `PlayerElement.stop()` with fuel. -/
def stopFuel : Nat → GState → Nat → GState × List (Nat × PEvent)
  | 0, g, _ => (g, [])
  | fuel + 1, g, i =>
    let w := getW g i
    let g1 :=
      match w.player with
      | some p =>
        if !p.paused then setW g i { w with player := some { p with paused := true } } else g
      | none => g
    handleStopFuel fuel g1 i false

/-- `PlayerElement.handleStop(finished)` with fuel. -/
def handleStopFuel : Nat → GState → Nat → Bool → GState × List (Nat × PEvent)
  | 0, g, _, _ => (g, [])
  | fuel + 1, g, i, finished =>
    let w := getW g i
    if finished ∧ w.loopAttr then
      startFuel fuel (setW g i (setCurrentTime w 0)) i true
    else
      let w1 := if finished then setCurrentTime w w.seekBarMax else w
      let g1 := setW g i w1
      let w2 := getW g1 i
      if w2.playing then
        (setW g1 i { w2 with playing := false }, [(i, PEvent.stop finished)])
      else (g1, [])

end

/-- `PlayerElement._start(looped)` (fuel instantiated). -/
def startW (g : GState) (i : Nat) (looped : Bool) : GState × List (Nat × PEvent) :=
  startFuel 4 g i looped

/-- `PlayerElement.stop()` (fuel instantiated). -/
def stopW (g : GState) (i : Nat) : GState × List (Nat × PEvent) :=
  stopFuel 4 g i

/-- `PlayerElement.handleStop(finished)` (fuel instantiated). -/
def handleStop (g : GState) (i : Nat) (finished : Bool) : GState × List (Nat × PEvent) :=
  handleStopFuel 4 g i finished

/-!
Sound-font loading (`initPlayerNow`): the fields it reads and writes, with
network fetches modelled as a pure environment, and the list of sound-font
URLs actually fetched returned alongside the new state.
-/

def DEFAULT_SOUNDFONT : String :=
  "https://spessasus.github.io/SpessaSynth/GeneralUserGS.sf3"

/-- The network, as a pure environment: URL to fetched bytes. -/
structure LoadEnv where
  fetchMidi : String → List Nat
  fetchBuf : String → List Nat

/-- The loading-related state of one `PlayerElement`: `domInitialized`,
the `src` and `sound-font` attributes, the loaded document `ns`, the
cached `soundfontBin`, and the buffer the current `SpessaSynthPlayer`
was constructed with. -/
structure PlayerElemState where
  domInit : Bool
  src : Option String
  ns : Option (List Nat)
  soundFontAttr : Option String
  soundfontBin : Option (List Nat)
  playerSf : Option (List Nat)
deriving Repr, DecidableEq, Inhabited

/-- `initPlayerNow`: bail out before DOM initialisation; refetch the
document when `src` is set; return early with no content or with a `null`
sound-font; otherwise resolve the empty sound-font attribute to the
default URL, fetch the sound-font **only when `soundfontBin` is still
undefined**, and construct the backend player from the cached buffer. -/
def initPlayerNow (env : LoadEnv) (w0 : PlayerElemState) :
    PlayerElemState × List String :=
  if !w0.domInit then (w0, []) else
  let w1 :=
    match w0.src with
    | some url => { w0 with ns := some (env.fetchMidi url) }
    | none => w0
  match w1.ns with
  | none => (w1, [])
  | some _ =>
    match w1.soundFontAttr with
    | none => (w1, [])
    | some sf =>
      let url := if sf = "" then DEFAULT_SOUNDFONT else sf
      match w1.soundfontBin with
      | some b => ({ w1 with playerSf := some b }, [])
      | none =>
        let b := env.fetchBuf url
        ({ w1 with soundfontBin := some b, playerSf := some b }, [url])

/-- The reconfigurations that can hit a widget: changing the `sound-font`
attribute, changing `src` (which clears `ns` first, as in the `src`
setter), and `reload()`.  Each triggers (a debounced) `initPlayerNow`. -/
inductive LoadOp where
  | setSoundFont : Option String → LoadOp
  | setSrc : Option String → LoadOp
  | reload : LoadOp
deriving Repr, DecidableEq

def applyOp (env : LoadEnv) (w : PlayerElemState) :
    LoadOp → PlayerElemState × List String
  | LoadOp.setSoundFont v => initPlayerNow env { w with soundFontAttr := v }
  | LoadOp.setSrc v => initPlayerNow env { w with src := v, ns := none }
  | LoadOp.reload => initPlayerNow env w

/-- A whole sequence of reconfigurations, accumulating every sound-font
URL fetched along the way. -/
def runOps (env : LoadEnv) : PlayerElemState → List LoadOp →
    PlayerElemState × List String
  | w, [] => (w, [])
  | w, op :: ops =>
    let r := applyOp env w op
    let r2 := runOps env r.1 ops
    (r2.1, r.2 ++ r2.2)

/-!
Characterizations and well-formedness predicates used by the theorems.
-/

/-- What the extraction pass does to a single stored event: tempo events
get their `messageData` replaced through `getTempo` (cursor reset and then
advanced past the three payload bytes); every other event is untouched. -/
def tempoMutate (e : MidiMessage) : MidiMessage :=
  if e.messageStatusByte = 0x51 then { e with messageData := (getTempo e.messageData).2 }
  else e

/-- Does the status byte encode a note-on or note-off? -/
def isNoteEvent (e : MidiMessage) : Bool :=
  e.messageStatusByte / 16 == 8 || e.messageStatusByte / 16 == 9

/-- The pitch/channel pair targeted by a note event. -/
def eventPC (e : MidiMessage) : Nat × Nat :=
  (e.messageData.data.getD 0 0, e.messageStatusByte % 16)

/-- The raw 3-byte big-endian tempo payload value of an event. -/
def tempoPayloadVal (e : MidiMessage) : Nat :=
  (readBytesAsUintBigEndian { data := e.messageData.data, currentIndex := 0 } 3).1

/-- Well-formedness of a (sorted) event stream, checked against the set
`S` of pitch/channel pairs already targeted by note events at the current
tick: ticks are non-decreasing, no two note events of one tick group
target the same pitch/channel (so a note is never closed at the very tick
at which it was opened), note payloads carry at least pitch and velocity,
and tempo payloads are three bytes encoding a positive value. -/
def WFrun : List (Nat × Nat) → List MidiMessage → Bool
  | _, [] => true
  | S, e :: rest =>
    (!(isNoteEvent e) || (decide (eventPC e ∉ S) && decide (2 ≤ e.messageData.data.length))) &&
    (!(e.messageStatusByte == 0x51) ||
      (decide (0 < tempoPayloadVal e) && decide (3 ≤ e.messageData.data.length))) &&
    (match rest with
     | [] => true
     | e2 :: _ =>
       decide (e.ticks ≤ e2.ticks) &&
       WFrun (if e2.ticks == e.ticks then (if isNoteEvent e then eventPC e :: S else S) else [])
         rest)

/-- A well-formed document: positive time division and a well-formed
sorted event stream. -/
def WFdoc (midi : BasicMIDI) : Prop :=
  0 < midi.timeDivision ∧ WFrun [] (sortedEvents midi) = true

/-- The `S` parameter of `WFrun` after processing one more event of the
same tick group. -/
def nextS (S : List (Nat × Nat)) (e : MidiMessage) : List (Nat × Nat) :=
  if isNoteEvent e then eventPC e :: S else S

/-- The loop invariant of the extraction pass, relative to the
pitch/channel pairs `S` already hit in the current tick group: sixteen
channels; a positive conversion factor; non-negative elapsed time; a
never-positive `unfinished` counter; every index in an unfinished list
points at a `length = -1` note opened no later than now (strictly earlier
unless its pitch/channel is in `S`); every other stored note is closed
with a positive length (at least the floor on channel 9); and unfinished
lists are strictly increasing. -/
structure Inv (s : ExtractState) (S : List (Nat × Nat)) : Prop where
  lenNT : s.noteTimes.length = 16
  lenUF : s.unfinishedNotes.length = 16
  factorPos : 0 < s.oneTickToSeconds
  elapsedNonneg : 0 ≤ s.elapsedTime
  ufNonpos : s.unfinished ≤ 0
  openMem : ∀ ch, ch < 16 → ∀ idx ∈ s.unfinishedNotes.getD ch [], ∃ n,
      (s.noteTimes.getD ch [])[idx]? = some n ∧ n.length = -1 ∧ 0 ≤ n.start ∧
      (n.start < s.elapsedTime ∨ ((n.midiNote, ch) ∈ S ∧ n.start ≤ s.elapsedTime))
  closedOk : ∀ ch, ch < 16 → ∀ idx n, (s.noteTimes.getD ch [])[idx]? = some n →
      idx ∉ s.unfinishedNotes.getD ch [] →
      0 ≤ n.start ∧ 0 < n.length ∧ (ch = 9 → minNoteTime ≤ n.length)
  openSorted : ∀ ch, ch < 16 → (s.unfinishedNotes.getD ch []).Pairwise (· < ·)

/-- What survives of the invariant at the end of the pass: the counter is
not positive (so the trailing pass does nothing) and every stored note is
either still provisional (`length = -1`) or closed well. -/
def EndInv (s : ExtractState) : Prop :=
  s.unfinished ≤ 0 ∧
  ∀ ch, ch < 16 → ∀ n ∈ s.noteTimes.getD ch [],
    n.length = -1 ∨ (0 ≤ n.start ∧ 0 < n.length ∧ (ch = 9 → minNoteTime ≤ n.length))

/-!
Concrete inputs used by counterexamples, witnesses and code-bug runs.
-/

/-- A document holding exactly one note-on (channel 0, pitch 60,
velocity 100, tick 0) and nothing else. -/
def soloNoteOnDoc : BasicMIDI :=
  { timeDivision := 480
    tracks := [[{ ticks := 0, messageStatusByte := 0x90,
                  messageData := { data := [60, 100], currentIndex := 0 } }]] }

/-- The spec's reference scenario: time division 480, a tempo event
setting 500000 µs per quarter at tick 0, note-on (60, 100) at tick 0 and
note-off at tick 480, all on channel 0. -/
def scenarioDoc : BasicMIDI :=
  { timeDivision := 480
    tracks := [[
      { ticks := 0, messageStatusByte := 0x51,
        messageData := { data := [0x07, 0xA1, 0x20], currentIndex := 0 } },
      { ticks := 0, messageStatusByte := 0x90,
        messageData := { data := [60, 100], currentIndex := 0 } },
      { ticks := 480, messageStatusByte := 0x80,
        messageData := { data := [60, 0], currentIndex := 0 } }]] }

/-- A document whose only event is a tempo event whose `messageData`
cursor initially sits at 7. -/
def tempoCursorDoc : BasicMIDI :=
  { timeDivision := 480
    tracks := [[{ ticks := 0, messageStatusByte := 0x51,
                  messageData := { data := [7, 161, 32], currentIndex := 7 } }]] }

/-- A mid-pass state in which channel 0 carries two open intervals for
pitch 60, the first opened at 2 s and the second at 3 s, with 5 s
elapsed. -/
def twoOpenState : ExtractState :=
  { noteTimes :=
      [{ midiNote := 60, start := 2, length := -1, velocity := 1 },
       { midiNote := 60, start := 3, length := -1, velocity := 1 }] :: List.replicate 15 []
    unfinishedNotes := [0, 1] :: List.replicate 15 []
    unfinished := 0
    elapsedTime := 5
    oneTickToSeconds := 1 }

/-- A widget that is playing at 10 s of a 100 s document. -/
def playingWidget : Widget :=
  { playing := true, seeking := false, loopAttr := false,
    seekBarValue := 10, seekBarMax := 100,
    player := some { seqTime := 10, paused := false } }

/-- A paused widget whose backend transport sits at 10 s. -/
def pausedWidget : Widget :=
  { playing := false, seeking := false, loopAttr := false,
    seekBarValue := 10, seekBarMax := 100,
    player := some { seqTime := 10, paused := true } }

/-- A looping widget at the natural end of its 30 s content: transport at
the end and paused, `_playing` still set. -/
def loopEndWidget : Widget :=
  { playing := true, seeking := false, loopAttr := true,
    seekBarValue := 30, seekBarMax := 30,
    player := some { seqTime := 30, paused := true } }

/-- The process state at natural end-of-content of `loopEndWidget`. -/
def loopEndGState : GState :=
  { widgets := [loopEndWidget], playingPlayer := some 0 }

/-- Widget A: loaded, stopped, backend paused at 0. -/
def widgetA : Widget :=
  { playing := false, seeking := false, loopAttr := false,
    seekBarValue := 0, seekBarMax := 50,
    player := some { seqTime := 0, paused := true } }

/-- Widget B: currently playing at 20 s of a 40 s document. -/
def widgetB : Widget :=
  { playing := true, seeking := false, loopAttr := false,
    seekBarValue := 20, seekBarMax := 40,
    player := some { seqTime := 20, paused := false } }

/-- A concrete environment for the loader: every fetch yields fixed
bytes. -/
def cEnv : LoadEnv :=
  { fetchMidi := fun _ => [1], fetchBuf := fun _ => [9, 9] }

/-- A widget whose sound-font buffer is already cached as `[7]`. -/
def cachedLoaderState : PlayerElemState :=
  { domInit := true, src := some "song.mid", ns := some [1]
    soundFontAttr := some "", soundfontBin := some [7], playerSf := some [7] }

/-!
Theorems, one per claim (with counterexamples and witnesses where the
claim status calls for them).
-/

/-- C2 (failing run): a document consisting of a single note-on is
returned with the provisional `length = -1` intact.  The end-of-stream
closing pass is guarded by `unfinished > 0`, but the defensive note-off
executed by the note-on handler decrements the counter even when it finds
nothing, so the counter ends at 0 here and the pass is skipped, contrary
to the claim (and to the source's own comment "finish the unfinished
notes"). -/
theorem C2_unfinished_retained :
    (getNoteTimes soloNoteOnDoc).getD 0 []
      = [{ midiNote := 60, start := 0, length := -1, velocity := 100 / 127 }]
  ∧ (runEvents soloNoteOnDoc.timeDivision (initialState soloNoteOnDoc)
        (sortedEvents soloNoteOnDoc)).1.unfinished = 0 :=
  ⟨rfl, rfl⟩

/-- C4: the ticks-to-seconds factor starts at the 120 BPM default
`60 / (120 * timeDivision)`, and a tempo event updates the factor before
the elapsed-time advance of the step starting at its own tick, so that
advance already uses the new factor, the previously accumulated elapsed
time enters only additively, and the recorded intervals are untouched by
the tempo step (the state below changes only `oneTickToSeconds` and
`elapsedTime`). -/
theorem C4_tempo_step :
    (∀ midi : BasicMIDI,
        (initialState midi).oneTickToSeconds = 60 / (120 * (midi.timeDivision : ℚ)))
  ∧ (∀ (td : Nat) (s : ExtractState) (tk : Nat) (md : IndexedByteArray)
        (e2 : MidiMessage) (rest : List MidiMessage),
      runEvents td s
          ({ ticks := tk, messageStatusByte := 0x51, messageData := md } :: e2 :: rest)
        = (let f := 60 / ((getTempo md).1 * (td : ℚ))
           let s2 := { s with oneTickToSeconds := f,
                              elapsedTime := s.elapsedTime + f * ((e2.ticks : ℚ) - (tk : ℚ)) }
           ((runEvents td s2 (e2 :: rest)).1,
            { ticks := tk, messageStatusByte := 0x51, messageData := (getTempo md).2 }
              :: (runEvents td s2 (e2 :: rest)).2))) :=
  ⟨fun _ => rfl, fun td s tk md e2 rest => by
    simp only [runEvents, stepEvent]
    norm_num⟩

/-- C5 (failing run): while `seeking` is set the note callback dispatches
the `note` event but leaves the displayed position untouched (the
suppression half of the claim holds); but on release of a drag that
started while playing, the backend has already been paused by the `input`
handler, so the `change` handler's `isPlaying` guard fails: the released
position (30 s) is **not** committed to the backend and playback does
**not** resume — the backend stays paused at 10 s. -/
theorem C5_seek_release_bug :
    (∀ (n : Nat) (la : Bool) (sv sm : ℚ) (py : Option Backend),
        noteCallback { playing := true, seeking := true, loopAttr := la,
                       seekBarValue := sv, seekBarMax := sm, player := py } n
          = ({ playing := true, seeking := true, loopAttr := la,
               seekBarValue := sv, seekBarMax := sm, player := py }, [PEvent.note n]))
  ∧ seekInput playingWidget
      = { playingWidget with seeking := true, player := some { seqTime := 10, paused := true } }
  ∧ seekChange { (seekInput playingWidget) with seekBarValue := 30 }
      = { playingWidget with
          seeking := false, seekBarValue := 30,
          player := some { seqTime := 10, paused := true } } :=
  ⟨fun _ _ _ _ _ => rfl, rfl, rfl⟩

/-- C6 (amended): at natural end-of-content with the loop flag set, the
widget emits **only** a `loop` event — no `stop {finished := true}` and no
`start` — and restarts with the displayed position reset to 0 and the
backend transport repositioned to 0 and playing. -/
theorem C6_loop_events (sk : Bool) (sv sm st : ℚ) :
    (handleStop
        { widgets := [{ playing := true, seeking := sk, loopAttr := true,
                        seekBarValue := sv, seekBarMax := sm,
                        player := some { seqTime := st, paused := true } }],
          playingPlayer := some 0 } 0 true).2
      = [(0, PEvent.loopEv)]
  ∧ getW (handleStop
        { widgets := [{ playing := true, seeking := sk, loopAttr := true,
                        seekBarValue := sv, seekBarMax := sm,
                        player := some { seqTime := st, paused := true } }],
          playingPlayer := some 0 } 0 true).1 0
      = { playing := true, seeking := sk, loopAttr := true,
          seekBarValue := 0, seekBarMax := sm,
          player := some { seqTime := 0, paused := false } } :=
  ⟨rfl, rfl⟩

/-- C6 (counterexample): at natural end-of-content of a looping widget
the emitted event list is `[loop]`; in particular no
`stop {finished := true}` event is emitted, contrary to the claimed
`stop` -then-`loop` sequence (`handleStop` returns before its `stop`
dispatch when restarting for a loop). -/
theorem C6_loop_counterexample :
    (handleStop loopEndGState 0 true).2 = [(0, PEvent.loopEv)]
  ∧ (0, PEvent.stop true) ∉ (handleStop loopEndGState 0 true).2 := by
  refine ⟨rfl, ?_⟩
  have h : (handleStop loopEndGState 0 true).2 = [(0, PEvent.loopEv)] := rfl
  rw [h]
  simp

/-- C7: starting widget A (index 0) while widget B (index 1) is the
process-wide playing widget first runs B's `stop()`: the emitted sequence
begins with B's `stop {finished := false}` and only then A's `start`
(the trailing `stop {finished := true}` of A is the synchronous
`handleStop(true)` call at the end of `_start`).  A widget restarting
itself with `looped = true` skips the exclusivity stop against itself and
emits only `loop`. -/
theorem C7_exclusivity (pa0 ska skb lb : Bool) (sva sma sta svb smb stb : ℚ)
    (skc : Bool) (svc smc stc : ℚ) :
    (startW
        { widgets :=
            [{ playing := pa0, seeking := ska, loopAttr := false, seekBarValue := sva,
               seekBarMax := sma, player := some { seqTime := sta, paused := true } },
             { playing := true, seeking := skb, loopAttr := lb, seekBarValue := svb,
               seekBarMax := smb, player := some { seqTime := stb, paused := false } }],
          playingPlayer := some 1 } 0 false).2
      = [(1, PEvent.stop false), (0, PEvent.start), (0, PEvent.stop true)]
  ∧ (startW
        { widgets :=
            [{ playing := true, seeking := skc, loopAttr := true, seekBarValue := svc,
               seekBarMax := smc, player := some { seqTime := stc, paused := true } }],
          playingPlayer := some 0 } 0 true).2
      = [(0, PEvent.loopEv)] :=
  ⟨rfl, rfl⟩

/-- C8 (amended): once a document is loaded, the `currentTime` setter
always updates the displayed position; it forwards the position to the
backend transport only when the backend is playing (leaving the
play/pause state unchanged), and leaves the backend untouched when it is
paused. -/
theorem C8_setter_only_when_playing (pl sk la : Bool) (sv sm v st : ℚ) :
    (setCurrentTime
        { playing := pl, seeking := sk, loopAttr := la, seekBarValue := sv,
          seekBarMax := sm, player := some { seqTime := st, paused := false } } v)
      = { playing := pl, seeking := sk, loopAttr := la, seekBarValue := v,
          seekBarMax := sm, player := some { seqTime := v, paused := false } }
  ∧ (setCurrentTime
        { playing := pl, seeking := sk, loopAttr := la, seekBarValue := sv,
          seekBarMax := sm, player := some { seqTime := st, paused := true } } v)
      = { playing := pl, seeking := sk, loopAttr := la, seekBarValue := v,
          seekBarMax := sm, player := some { seqTime := st, paused := true } }
  ∧ (setCurrentTime
        { playing := pl, seeking := sk, loopAttr := la, seekBarValue := sv,
          seekBarMax := sm, player := none } v)
      = { playing := pl, seeking := sk, loopAttr := la, seekBarValue := v,
          seekBarMax := sm, player := none } :=
  ⟨rfl, rfl, rfl⟩

/-- C8 (counterexample): with a loaded but paused widget, setting
`currentTime` to 30 leaves the backend transport at 10: the setter does
not seek the backend in the paused state, contrary to the claim. -/
theorem C8_setter_counterexample :
    (setCurrentTime pausedWidget 30).player = some { seqTime := 10, paused := true }
  ∧ (setCurrentTime pausedWidget 30).player ≠ some { seqTime := 30, paused := true } := by
  refine ⟨rfl, ?_⟩
  have h : (setCurrentTime pausedWidget 30).player = some { seqTime := 10, paused := true } := rfl
  rw [h]
  intro hc
  have : (10 : ℚ) = 30 := congrArg (fun o => (o.getD default).seqTime) hc
  norm_num at this

/-- One `initPlayerNow` run with an already-cached sound-font buffer
keeps the cache, fetches nothing, and either rebuilds the player from the
cached buffer or leaves the player untouched (early return). -/
theorem initPlayerNow_cached (env : LoadEnv) (w : PlayerElemState) (b : List Nat)
    (h : w.soundfontBin = some b) :
    (initPlayerNow env w).1.soundfontBin = some b ∧ (initPlayerNow env w).2 = []
    ∧ ((initPlayerNow env w).1.playerSf = some b
        ∨ (initPlayerNow env w).1.playerSf = w.playerSf) := by
  obtain ⟨di, src, ns, sfa, bin, psf⟩ := w
  cases di <;> cases src <;> cases ns <;> cases sfa <;> simp_all [initPlayerNow]

/-- The cached-buffer facts survive any single reconfiguration. -/
theorem applyOp_cached (env : LoadEnv) (w : PlayerElemState) (b : List Nat) (op : LoadOp)
    (h : w.soundfontBin = some b) :
    (applyOp env w op).1.soundfontBin = some b ∧ (applyOp env w op).2 = []
    ∧ ((applyOp env w op).1.playerSf = some b
        ∨ (applyOp env w op).1.playerSf = w.playerSf) := by
  cases op with
  | setSoundFont v => exact initPlayerNow_cached env { w with soundFontAttr := v } b h
  | setSrc v => exact initPlayerNow_cached env { w with src := v, ns := none } b h
  | reload => exact initPlayerNow_cached env w b h

/-- The cached-buffer facts survive any sequence of reconfigurations. -/
theorem runOps_cached (env : LoadEnv) (w : PlayerElemState) (b : List Nat)
    (ops : List LoadOp) (h : w.soundfontBin = some b) :
    (runOps env w ops).1.soundfontBin = some b ∧ (runOps env w ops).2 = []
    ∧ ((runOps env w ops).1.playerSf = some b
        ∨ (runOps env w ops).1.playerSf = w.playerSf) := by
  induction ops generalizing w with
  | nil => exact ⟨h, rfl, Or.inr rfl⟩
  | cons op ops ih =>
    obtain ⟨h1, h2, h3⟩ := applyOp_cached env w b op h
    obtain ⟨g1, g2, g3⟩ := ih (applyOp env w op).1 h1
    refine ⟨g1, ?_, ?_⟩
    · show (applyOp env w op).2 ++ (runOps env (applyOp env w op).1 ops).2 = []
      rw [h2, g2]
      rfl
    · rcases g3 with g3 | g3
      · exact Or.inl g3
      · rcases h3 with h3 | h3
        · exact Or.inl (g3.trans h3)
        · exact Or.inr (g3.trans h3)

/-- One `initPlayerNow` run with no cached buffer either returns early
(no fetch, cache still empty) or fetches exactly once and fills the
cache. -/
theorem initPlayerNow_fresh (env : LoadEnv) (w : PlayerElemState)
    (h : w.soundfontBin = none) :
    ((initPlayerNow env w).2 = [] ∧ (initPlayerNow env w).1.soundfontBin = none)
    ∨ ((initPlayerNow env w).2.length = 1
        ∧ ∃ b, (initPlayerNow env w).1.soundfontBin = some b) := by
  obtain ⟨di, src, ns, sfa, bin, psf⟩ := w
  cases di <;> cases src <;> cases ns <;> cases sfa <;> simp_all [initPlayerNow]

/-- `initPlayerNow_fresh`, for an arbitrary reconfiguration. -/
theorem applyOp_fresh (env : LoadEnv) (w : PlayerElemState) (op : LoadOp)
    (h : w.soundfontBin = none) :
    ((applyOp env w op).2 = [] ∧ (applyOp env w op).1.soundfontBin = none)
    ∨ ((applyOp env w op).2.length = 1
        ∧ ∃ b, (applyOp env w op).1.soundfontBin = some b) := by
  cases op with
  | setSoundFont v => exact initPlayerNow_fresh env { w with soundFontAttr := v } h
  | setSrc v => exact initPlayerNow_fresh env { w with src := v, ns := none } h
  | reload => exact initPlayerNow_fresh env w h

/-- Starting from an empty cache, a whole reconfiguration sequence
fetches the sound-font at most once. -/
theorem runOps_fetch_once (env : LoadEnv) (w : PlayerElemState) (ops : List LoadOp)
    (h : w.soundfontBin = none) : ((runOps env w ops).2).length ≤ 1 := by
  induction ops generalizing w with
  | nil => simp [runOps]
  | cons op ops ih =>
    show ((applyOp env w op).2 ++ (runOps env (applyOp env w op).1 ops).2).length ≤ 1
    rcases applyOp_fresh env w op h with ⟨h1, h2⟩ | ⟨h1, b, h2⟩
    · rw [h1]
      simpa using ih (applyOp env w op).1 h2
    · have h3 := (runOps_cached env (applyOp env w op).1 b ops h2).2.1
      rw [h3]
      simp [h1]

/-- C10: once the sound-font buffer has been fetched (`soundfontBin` is
set), every later reconfiguration — changing `sound-font`, changing
`src`, or reloading — fetches nothing, keeps the cached buffer, and any
player it constructs uses that same cached buffer; and starting from an
empty cache, any reconfiguration sequence performs at most one sound-font
fetch. -/
theorem C10_soundfont_cache :
    (∀ (env : LoadEnv) (w : PlayerElemState) (b : List Nat) (ops : List LoadOp),
        w.soundfontBin = some b →
        (runOps env w ops).1.soundfontBin = some b
      ∧ (runOps env w ops).2 = []
      ∧ ((runOps env w ops).1.playerSf = some b
          ∨ (runOps env w ops).1.playerSf = w.playerSf))
  ∧ (∀ (env : LoadEnv) (w : PlayerElemState) (ops : List LoadOp),
        w.soundfontBin = none → ((runOps env w ops).2).length ≤ 1) :=
  ⟨fun env w b ops h => runOps_cached env w b ops h,
   fun env w ops h => runOps_fetch_once env w ops h⟩

/-- C10 witness: a widget with buffer `[7]` cached undergoes a
sound-font attribute change followed by a reload; the cache still holds
`[7]` and nothing was fetched. -/
theorem C10_soundfont_cache_witness :
    (runOps cEnv cachedLoaderState
        [LoadOp.setSoundFont (some "other.sf3"), LoadOp.reload]).1.soundfontBin = some [7]
  ∧ (runOps cEnv cachedLoaderState
        [LoadOp.setSoundFont (some "other.sf3"), LoadOp.reload]).2 = [] :=
  ⟨(C10_soundfont_cache.1 cEnv cachedLoaderState [7]
      [LoadOp.setSoundFont (some "other.sf3"), LoadOp.reload] rfl).1,
   (C10_soundfont_cache.1 cEnv cachedLoaderState [7]
      [LoadOp.setSoundFont (some "other.sf3"), LoadOp.reload] rfl).2.1⟩

/-- Each loop step leaves the stored event exactly as `tempoMutate`
describes. -/
theorem stepEvent_snd (td : Nat) (s : ExtractState) (e : MidiMessage) :
    (stepEvent td s e).2 = tempoMutate e := by
  by_cases hT : e.messageStatusByte = 0x51
  · have h8 : ¬ e.messageStatusByte / 16 = 8 := by rw [hT]; norm_num
    have h9 : ¬ e.messageStatusByte / 16 = 9 := by rw [hT]; norm_num
    simp [stepEvent, tempoMutate, hT, h8, h9]
  · unfold stepEvent tempoMutate
    rw [if_neg hT]
    dsimp only
    split_ifs <;> rfl

/-- The whole loop maps `tempoMutate` over the event list. -/
theorem runEvents_snd (td : Nat) (s : ExtractState) (evs : List MidiMessage) :
    (runEvents td s evs).2 = evs.map tempoMutate := by
  induction evs generalizing s with
  | nil => rfl
  | cons e rest ih =>
    cases rest with
    | nil =>
      show [(stepEvent td s e).2] = [tempoMutate e]
      rw [stepEvent_snd]
    | cons e2 rest2 =>
      show (stepEvent td s e).2
            :: (runEvents td
                { (stepEvent td s e).1 with
                  elapsedTime := (stepEvent td s e).1.elapsedTime
                    + (stepEvent td s e).1.oneTickToSeconds
                      * ((e2.ticks : ℚ) - (e.ticks : ℚ)) } (e2 :: rest2)).2
          = tempoMutate e :: List.map tempoMutate (e2 :: rest2)
      rw [stepEvent_snd, ih]

/-- C9 (amended): extraction leaves every event's `ticks`, status byte and
payload bytes unchanged and leaves non-tempo events entirely unchanged;
tempo events, however, have their `messageData` wrapper replaced (cursor
reset and advanced to 3), which is the in-place document mutation that
refutes the claim as stated. -/
theorem C9_event_preservation :
    (∀ midi : BasicMIDI, (getNoteTimesFull midi).2 = (sortedEvents midi).map tempoMutate)
  ∧ (∀ e : MidiMessage,
        (tempoMutate e).ticks = e.ticks
      ∧ (tempoMutate e).messageStatusByte = e.messageStatusByte
      ∧ (tempoMutate e).messageData.data = e.messageData.data)
  ∧ (∀ e : MidiMessage, e.messageStatusByte ≠ 0x51 → tempoMutate e = e) :=
  ⟨fun midi => runEvents_snd midi.timeDivision (initialState midi) (sortedEvents midi),
   fun e => by unfold tempoMutate; split_ifs <;> simp [getTempo, readBytesAsUintBigEndian],
   fun e h => by simp [tempoMutate, h]⟩

/-- C9 witness: a concrete note-on event is left untouched by
`tempoMutate`. -/
theorem C9_event_preservation_witness :
    tempoMutate { ticks := 0, messageStatusByte := 0x90,
                  messageData := { data := [60, 100], currentIndex := 0 } }
      = { ticks := 0, messageStatusByte := 0x90,
          messageData := { data := [60, 100], currentIndex := 0 } } :=
  C9_event_preservation.2.2 _ (by norm_num)

/-- C9 (counterexample): extracting a document whose tempo event's
`messageData` cursor sits at 7 returns that event with cursor 3 — a field
of an event of the input document changed, so extraction is not
non-mutating. -/
theorem C9_mutation_counterexample :
    ((getNoteTimesFull tempoCursorDoc).2.getD 0 default).messageData.currentIndex = 3
  ∧ (tempoCursorDoc.tracks.flatten.getD 0 default).messageData.currentIndex = 7 :=
  ⟨rfl, rfl⟩

/-- `listModify` keeps the length. -/
theorem length_listModify (xs : List α) (i : Nat) (f : α → α) :
    (listModify xs i f).length = xs.length := by
  induction xs generalizing i with
  | nil => rfl
  | cons x t ih =>
    cases i with
    | zero => rfl
    | succ k => simpa [listModify] using ih k

/-- Reading the modified position. -/
theorem getElem?_listModify_self (xs : List α) (i : Nat) (f : α → α) :
    (listModify xs i f)[i]? = (xs[i]?).map f := by
  induction xs generalizing i with
  | nil => cases i <;> rfl
  | cons x t ih =>
    cases i with
    | zero => simp [listModify]
    | succ k => simpa [listModify] using ih k

/-- Reading any other position. -/
theorem getElem?_listModify_ne (xs : List α) (i j : Nat) (f : α → α) (h : i ≠ j) :
    (listModify xs i f)[j]? = xs[j]? := by
  induction xs generalizing i j with
  | nil => cases i <;> rfl
  | cons x t ih =>
    cases i with
    | zero =>
      cases j with
      | zero => exact absurd rfl h
      | succ k => simp [listModify]
    | succ k =>
      cases j with
      | zero => simp [listModify]
      | succ k2 =>
        simpa [listModify] using ih k k2 (fun he => h (by rw [he]))

/-- `getD` of a modified list at the modified position. -/
theorem getD_listModify_self (xs : List (List β)) (c : Nat) (f : List β → List β)
    (h : c < xs.length) :
    (listModify xs c f).getD c [] = f (xs.getD c []) := by
  rcases List.getElem?_eq_some_iff.mpr ⟨h, rfl⟩ with h2
  rw [List.getD_eq_getElem?_getD, List.getD_eq_getElem?_getD,
    getElem?_listModify_self, h2]
  rfl

/-- `getD` of a modified list at any other position. -/
theorem getD_listModify_ne (xs : List (List β)) (c c2 : Nat) (f : List β → List β)
    (h : c ≠ c2) :
    (listModify xs c f).getD c2 [] = xs.getD c2 [] := by
  rw [List.getD_eq_getElem?_getD, List.getD_eq_getElem?_getD, getElem?_listModify_ne _ _ _ _ h]

/-- A non-default `getD` read is in range. -/
theorem lt_length_of_getD_ne (xs : List α) (c : Nat) (d : α) (h : xs.getD c d ≠ d) :
    c < xs.length := by
  by_contra hc
  push_neg at hc
  exact h (List.getD_eq_default xs d hc)

/-- What a successful `findIndex` yields: an in-range element satisfying
the predicate. -/
theorem findIndexFn_some (pr : α → Bool) (l : List α) (k : Nat)
    (h : findIndexFn pr l = some k) : ∃ a, l[k]? = some a ∧ pr a = true := by
  induction l generalizing k with
  | nil => simp [findIndexFn] at h
  | cons x t ih =>
    by_cases hx : pr x
    · simp [findIndexFn, hx] at h
      exact ⟨x, by simp [← h], hx⟩
    · simp [findIndexFn, hx] at h
      rcases h with ⟨k2, hk2, hkk⟩
      rcases ih k2 hk2 with ⟨a, ha1, ha2⟩
      exact ⟨a, by simpa [← hkk] using ha1, ha2⟩

/-- A failed `findIndex` means no element satisfies the predicate. -/
theorem findIndexFn_none (pr : α → Bool) (l : List α)
    (h : findIndexFn pr l = none) : ∀ a ∈ l, pr a = false := by
  induction l with
  | nil => intro a ha; cases ha
  | cons x t ih =>
    by_cases hx : pr x
    · simp [findIndexFn, hx] at h
    · intro a ha
      simp [findIndexFn, hx] at h
      rcases List.mem_cons.mp ha with ha | ha
      · rw [ha]; simpa using hx
      · exact ih h a ha

/-- `noteOff` when `findIndex` succeeds: the note referenced at position
`k` of the unfinished list is closed (its length set from the elapsed
time, with the channel-9 floor), that position is removed from the
unfinished list, and the counter is decremented. -/
theorem noteOff_eq_of_find (p c : Nat) (s : ExtractState) (k idx : Nat)
    (hfind : findIndexFn (fun i =>
        match (s.noteTimes.getD c [])[i]? with
        | some nn => nn.midiNote == p
        | none => false) (s.unfinishedNotes.getD c []) = some k)
    (hidx : (s.unfinishedNotes.getD c [])[k]? = some idx) :
    noteOff p c s = { s with
      noteTimes := listModify s.noteTimes c (fun cn => listModify cn idx (fun nn =>
        { nn with
          length := lengthAdjust (s.elapsedTime - (((s.noteTimes.getD c [])[idx]?).getD default).start) c })),
      unfinishedNotes := listModify s.unfinishedNotes c (fun u => u.eraseIdx k),
      unfinished := s.unfinished - 1 } := by
  simp only [noteOff, hfind, hidx]

/-- `noteOff` when `findIndex` fails: only the counter changes. -/
theorem noteOff_eq_of_no_find (p c : Nat) (s : ExtractState)
    (hfind : findIndexFn (fun i =>
        match (s.noteTimes.getD c [])[i]? with
        | some nn => nn.midiNote == p
        | none => false) (s.unfinishedNotes.getD c []) = none) :
    noteOff p c s = { s with unfinished := s.unfinished - 1 } := by
  simp only [noteOff, hfind]

/-- C1 (amended): when more than one open interval for pitch `p` on
channel `c` exists, `noteOff` resolves the **earliest-opened** one — the
head of the unfinished list (`findIndex` takes the first match) — setting
its length to `elapsedSeconds - start` with the channel-9 floor; every
later-opened matching interval (here the one at index `j`) is left
untouched, and the unfinished list loses its head. -/
theorem C1_noteoff_fifo (s : ExtractState) (p c i : Nat) (rest : List Nat)
    (n m : NoteTime) (j : Nat)
    (hu : s.unfinishedNotes.getD c [] = i :: rest)
    (hn : (s.noteTimes.getD c [])[i]? = some n)
    (hp : n.midiNote = p)
    (hj : j ∈ rest)
    (hm : (s.noteTimes.getD c [])[j]? = some m)
    (hpm : m.midiNote = p)
    (hij : i ≠ j) :
    ((noteOff p c s).noteTimes.getD c [])[i]?
      = some { n with length := lengthAdjust (s.elapsedTime - n.start) c }
  ∧ ((noteOff p c s).noteTimes.getD c [])[j]? = some m
  ∧ (noteOff p c s).unfinishedNotes.getD c [] = rest
  ∧ (noteOff p c s).unfinished = s.unfinished - 1 := by
  have hcNT : c < s.noteTimes.length := by
    apply lt_length_of_getD_ne
    intro he
    rw [he] at hn
    simp at hn
  have hcUF : c < s.unfinishedNotes.length := by
    apply lt_length_of_getD_ne
    intro he
    rw [he] at hu
    cases hu
  have hfind : findIndexFn (fun i2 =>
      match (s.noteTimes.getD c [])[i2]? with
      | some nn => nn.midiNote == p
      | none => false) (s.unfinishedNotes.getD c []) = some 0 := by
    rw [hu]
    simp only [findIndexFn, hn, hp, beq_self_eq_true, if_true]
  have hidx : (s.unfinishedNotes.getD c [])[0]? = some i := by
    rw [hu]
    exact List.getElem?_cons_zero
  rw [noteOff_eq_of_find p c s 0 i hfind hidx]
  refine ⟨?_, ?_, ?_, rfl⟩
  · rw [getD_listModify_self _ _ _ hcNT, getElem?_listModify_self, hn]
    simp [hn]
  · rw [getD_listModify_self _ _ _ hcNT, getElem?_listModify_ne _ _ _ _ hij, hm]
  · rw [getD_listModify_self _ _ _ hcUF, hu]
    rfl

/-- C1 (counterexample): in `twoOpenState` (two open pitch-60 intervals
on channel 0, opened at 2 s and 3 s, elapsed 5 s), `noteOff 60 0` leaves
the most recently opened interval (index 1) with its provisional length
`-1` and instead closes the first-opened one (index 0) with length
`5 - 2 = 3` — so the note-off does not resolve the most recently opened
interval as claimed. -/
theorem C1_noteoff_counterexample :
    ((noteOff 60 0 twoOpenState).noteTimes.getD 0 [])[1]?
      = some { midiNote := 60, start := 3, length := -1, velocity := 1 }
  ∧ ((noteOff 60 0 twoOpenState).noteTimes.getD 0 [])[0]?
      = some { midiNote := 60, start := 2, length := 3, velocity := 1 } := by
  constructor
  · rfl
  · norm_num [noteOff, twoOpenState, findIndexFn, listModify, lengthAdjust, minNoteTime]

/-- C1 witness: the amended theorem applied to `twoOpenState`. -/
theorem C1_noteoff_fifo_witness :
    ((noteOff 60 0 twoOpenState).noteTimes.getD 0 [])[1]?
      = some { midiNote := 60, start := 3, length := -1, velocity := 1 }
  ∧ (noteOff 60 0 twoOpenState).unfinishedNotes.getD 0 [] = [1]
  ∧ (noteOff 60 0 twoOpenState).unfinished = twoOpenState.unfinished - 1 := by
  have h := C1_noteoff_fifo twoOpenState 60 0 0 [1]
    { midiNote := 60, start := 2, length := -1, velocity := 1 }
    { midiNote := 60, start := 3, length := -1, velocity := 1 } 1
    rfl rfl rfl (by simp) rfl rfl (by norm_num)
  exact ⟨h.2.1, h.2.2.1, h.2.2.2⟩

/-- An element different from the one at the erased position survives
`eraseIdx`. -/
theorem mem_eraseIdx_of_ne (l : List Nat) (k a : Nat) (h : l[k]? = some a)
    (x : Nat) (hx : x ∈ l) (hne : x ≠ a) : x ∈ l.eraseIdx k := by
  induction l generalizing k with
  | nil => cases hx
  | cons y t ih =>
    cases k with
    | zero =>
      have hy : y = a := by simpa using h
      rcases List.mem_cons.mp hx with h1 | h1
      · exact absurd (h1.trans hy) hne
      · simpa [List.eraseIdx_cons_zero] using h1
    | succ k2 =>
      rcases List.mem_cons.mp hx with h1 | h1
      · simp [List.eraseIdx_cons_succ, h1]
      · have h2 := ih k2 (by simpa using h) h1
        simp [List.eraseIdx_cons_succ, h2]

/-- In a strictly increasing list, the element at the erased position is
gone after `eraseIdx`. -/
theorem not_mem_eraseIdx_self (l : List Nat) (k a : Nat)
    (hp : l.Pairwise (· < ·)) (h : l[k]? = some a) : a ∉ l.eraseIdx k := by
  induction l generalizing k with
  | nil => simp at h
  | cons y t ih =>
    cases k with
    | zero =>
      have hy : y = a := by simpa using h
      subst hy
      rw [List.eraseIdx_cons_zero]
      intro hmem
      exact lt_irrefl y (List.rel_of_pairwise_cons hp hmem)
    | succ k2 =>
      rw [List.eraseIdx_cons_succ]
      intro hmem
      rcases List.mem_cons.mp hmem with h1 | h1
      · have ha : a ∈ t := List.getElem?_mem (by simpa using h)
        have h2 := List.rel_of_pairwise_cons hp ha
        rw [h1] at h2
        exact lt_irrefl y h2
      · exact ih k2 (List.pairwise_cons.mp hp).2 (by simpa using h) h1

/-- Appending an upper bound preserves strict increase. -/
theorem pairwise_append_lt (u : List Nat) (L : Nat)
    (hu : u.Pairwise (· < ·)) (hL : ∀ x ∈ u, x < L) :
    (u ++ [L]).Pairwise (· < ·) := by
  apply List.pairwise_append.mpr
  refine ⟨hu, List.pairwise_singleton _ _, ?_⟩
  intro a ha b hb
  have : b = L := by simpa using hb
  rw [this]
  exact hL a ha

/-- The invariant is monotone in the current-tick-group set `S`. -/
theorem Inv.mono (s : ExtractState) (S S2 : List (Nat × Nat))
    (hsub : ∀ x ∈ S, x ∈ S2) (h : Inv s S) : Inv s S2 := by
  refine ⟨h.lenNT, h.lenUF, h.factorPos, h.elapsedNonneg, h.ufNonpos, ?_, h.closedOk, h.openSorted⟩
  intro ch hch idx hidx
  rcases h.openMem ch hch idx hidx with ⟨n, h1, h2, h3, h4⟩
  refine ⟨n, h1, h2, h3, ?_⟩
  rcases h4 with h4 | ⟨h4, h5⟩
  · exact Or.inl h4
  · exact Or.inr ⟨hsub _ h4, h5⟩

/-- A positive closing time yields a positive adjusted length. -/
theorem lengthAdjust_pos (t : ℚ) (c : Nat) (ht : 0 < t) : 0 < lengthAdjust t c := by
  unfold lengthAdjust
  split_ifs with h
  · norm_num [minNoteTime]
  · exact ht

/-- On channel 9 the adjusted length respects the floor. -/
theorem lengthAdjust_floor (t : ℚ) : minNoteTime ≤ lengthAdjust t 9 := by
  unfold lengthAdjust
  split_ifs with h
  · exact le_refl _
  · exact le_of_not_lt (fun hlt => h ⟨hlt, rfl⟩)

/-- `noteOff` preserves the invariant (for a pitch/channel not yet hit in
the current tick group), leaves the clock and factor alone, decrements
the counter by one, and keeps every channel's note count. -/
theorem noteOff_inv (s : ExtractState) (S : List (Nat × Nat)) (p c : Nat)
    (hInv : Inv s S) (hc : c < 16) (hS : (p, c) ∉ S) :
    Inv (noteOff p c s) S
    ∧ (noteOff p c s).elapsedTime = s.elapsedTime
    ∧ (noteOff p c s).oneTickToSeconds = s.oneTickToSeconds
    ∧ (noteOff p c s).unfinished = s.unfinished - 1
    ∧ ∀ ch, ((noteOff p c s).noteTimes.getD ch []).length
        = (s.noteTimes.getD ch []).length := by
  have hcNT : c < s.noteTimes.length := by rw [hInv.lenNT]; exact hc
  have hcUF : c < s.unfinishedNotes.length := by rw [hInv.lenUF]; exact hc
  cases hfind : findIndexFn (fun i =>
      match (s.noteTimes.getD c [])[i]? with
      | some nn => nn.midiNote == p
      | none => false) (s.unfinishedNotes.getD c []) with
  | none =>
    rw [noteOff_eq_of_no_find p c s hfind]
    refine ⟨⟨hInv.lenNT, hInv.lenUF, hInv.factorPos, hInv.elapsedNonneg, ?_,
        hInv.openMem, hInv.closedOk, hInv.openSorted⟩, rfl, rfl, rfl, fun _ => rfl⟩
    show s.unfinished - 1 ≤ 0
    have := hInv.ufNonpos
    omega
  | some k =>
    rcases findIndexFn_some _ _ _ hfind with ⟨idx, hidx, hpred⟩
    rcases hn' : (s.noteTimes.getD c [])[idx]? with _ | n
    · rw [hn'] at hpred; simp at hpred
    rw [hn'] at hpred
    have hpn : n.midiNote = p := by simpa using hpred
    have hidxMem : idx ∈ s.unfinishedNotes.getD c [] := List.getElem?_mem hidx
    rcases hInv.openMem c hc idx hidxMem with ⟨n2, hn2, hlen2, hst2, hdisj⟩
    have hnn : n2 = n := by
      rw [hn'] at hn2
      exact (Option.some_inj.mp hn2).symm
    subst hnn
    have hstrict : n2.start < s.elapsedTime := by
      rcases hdisj with h4 | ⟨h4, _⟩
      · exact h4
      · rw [hpn] at h4
        exact absurd h4 hS
    rw [noteOff_eq_of_find p c s k idx hfind hidx, hn']
    simp only [Option.getD_some]
    refine ⟨⟨?_, ?_, hInv.factorPos, hInv.elapsedNonneg, ?_, ?_, ?_, ?_⟩, trivial, trivial, trivial, ?_⟩
    · show (listModify s.noteTimes c _).length = 16
      rw [length_listModify, hInv.lenNT]
    · show (listModify s.unfinishedNotes c _).length = 16
      rw [length_listModify, hInv.lenUF]
    · show s.unfinished - 1 ≤ 0
      have := hInv.ufNonpos
      omega
    · -- openMem
      intro ch hch idx2 hidx2
      by_cases hcc : ch = c
      · subst hcc
        rw [getD_listModify_self _ _ _ hcUF] at hidx2
        have hidx2mem : idx2 ∈ s.unfinishedNotes.getD ch [] :=
          (List.eraseIdx_sublist _ k).mem hidx2
        have hne2 : idx2 ≠ idx := by
          intro he
          exact not_mem_eraseIdx_self _ k idx (hInv.openSorted ch hch) hidx (he ▸ hidx2)
        rcases hInv.openMem ch hch idx2 hidx2mem with ⟨n3, h1, h2, h3, h4⟩
        refine ⟨n3, ?_, h2, h3, h4⟩
        rw [getD_listModify_self _ _ _ hcNT,
          getElem?_listModify_ne _ _ _ _ (fun he => hne2 he.symm)]
        exact h1
      · rw [getD_listModify_ne _ _ _ _ (fun he => hcc he.symm)] at hidx2
        rcases hInv.openMem ch hch idx2 hidx2 with ⟨n3, h1, h2, h3, h4⟩
        refine ⟨n3, ?_, h2, h3, h4⟩
        rw [getD_listModify_ne _ _ _ _ (fun he => hcc he.symm)]
        exact h1
    · -- closedOk
      intro ch hch idx2 n3 hget hnotmem
      by_cases hcc : ch = c
      · subst hcc
        rw [getD_listModify_self _ _ _ hcNT] at hget
        rw [getD_listModify_self _ _ _ hcUF] at hnotmem
        by_cases hii : idx2 = idx
        · subst hii
          rw [getElem?_listModify_self, hn'] at hget
          have hn3 : n3 = { n2 with
              length := lengthAdjust (s.elapsedTime - n2.start) ch } := by
            have := Option.some_inj.mp hget
            exact this.symm
          subst hn3
          refine ⟨hst2, ?_, ?_⟩
          · exact lengthAdjust_pos _ _ (by linarith)
          · intro h9
            subst h9
            exact lengthAdjust_floor _
        · rw [getElem?_listModify_ne _ _ _ _ (fun he => hii he.symm)] at hget
          have hnm : idx2 ∉ s.unfinishedNotes.getD ch [] := by
            intro hmm
            exact hnotmem (mem_eraseIdx_of_ne _ k idx hidx idx2 hmm hii)
          exact hInv.closedOk ch hch idx2 n3 hget hnm
      · rw [getD_listModify_ne _ _ _ _ (fun he => hcc he.symm)] at hget
        rw [getD_listModify_ne _ _ _ _ (fun he => hcc he.symm)] at hnotmem
        exact hInv.closedOk ch hch idx2 n3 hget hnotmem
    · -- openSorted
      intro ch hch
      by_cases hcc : ch = c
      · subst hcc
        rw [getD_listModify_self _ _ _ hcUF]
        exact (hInv.openSorted ch hch).sublist (List.eraseIdx_sublist _ k)
      · rw [getD_listModify_ne _ _ _ _ (fun he => hcc he.symm)]
        exact hInv.openSorted ch hch
    · -- per-channel lengths
      intro ch
      by_cases hcc : ch = c
      · subst hcc
        rw [getD_listModify_self _ _ _ hcNT, length_listModify]
      · rw [getD_listModify_ne _ _ _ _ (fun he => hcc he.symm)]

/-- An index that reads successfully is in range. -/
theorem lt_of_getElem?_some {l : List α} {n : Nat} {a : α} (h : l[n]? = some a) :
    n < l.length := by
  rcases List.getElem?_eq_some_iff.mp h with ⟨h1, _⟩
  exact h1

/-- Append lookup below the boundary. -/
theorem getElem?_append_lt {l1 l2 : List α} {n : Nat} (h : n < l1.length) :
    (l1 ++ l2)[n]? = l1[n]? := by
  rw [List.getElem?_append]
  exact if_pos h

/-- Append lookup exactly at the boundary of a one-element extension. -/
theorem getElem?_append_len {l1 : List α} {a : α} :
    (l1 ++ [a])[l1.length]? = some a := by
  rw [List.getElem?_append, if_neg (lt_irrefl _)]
  simp

/-- Processing one event preserves the invariant, with the tick-group set
extended by the event's pitch/channel when it is a note event. -/
theorem stepEvent_inv (td : Nat) (htd : 0 < td) (s : ExtractState)
    (S : List (Nat × Nat)) (e : MidiMessage) (hInv : Inv s S)
    (hne : isNoteEvent e = true → eventPC e ∉ S)
    (htm : e.messageStatusByte = 0x51 → 0 < tempoPayloadVal e) :
    Inv (stepEvent td s e).1 (nextS S e) := by
  have hch : e.messageStatusByte % 16 < 16 := Nat.mod_lt _ (by norm_num)
  by_cases h8 : e.messageStatusByte / 16 = 8
  · have hNote : isNoteEvent e = true := by simp [isNoteEvent, h8]
    have hS : (e.messageData.data.getD 0 0, e.messageStatusByte % 16) ∉ S := hne hNote
    have hstep : (stepEvent td s e).1
        = noteOff (e.messageData.data.getD 0 0) (e.messageStatusByte % 16) s := by
      simp [stepEvent, h8]
    have hnext : nextS S e = eventPC e :: S := by simp [nextS, hNote]
    rw [hstep, hnext]
    exact Inv.mono _ S _ (fun x hx => List.mem_cons_of_mem _ hx)
      (noteOff_inv s S _ _ hInv hch hS).1
  by_cases h9 : e.messageStatusByte / 16 = 9
  · have hNote : isNoteEvent e = true := by simp [isNoteEvent, h9]
    have hS : (e.messageData.data.getD 0 0, e.messageStatusByte % 16) ∉ S := hne hNote
    have hnext : nextS S e = eventPC e :: S := by simp [nextS, hNote]
    by_cases hv : e.messageData.data[1]? = some 0
    · have hstep : (stepEvent td s e).1
          = noteOff (e.messageData.data.getD 0 0) (e.messageStatusByte % 16) s := by
        simp [stepEvent, h8, h9, hv]
      rw [hstep, hnext]
      exact Inv.mono _ S _ (fun x hx => List.mem_cons_of_mem _ hx)
        (noteOff_inv s S _ _ hInv hch hS).1
    · -- note-on: defensive close, then open a new interval
      obtain ⟨inv1, helap1, hfact1, huf1, hlen1⟩ := noteOff_inv s S _ _ hInv hch hS
      set p := e.messageData.data.getD 0 0 with hp
      set c := e.messageStatusByte % 16 with hcdef
      set s1 := noteOff p c s with hs1
      set nt : NoteTime :=
        { midiNote := p
          start := s.elapsedTime
          length := -1
          velocity := (e.messageData.data.getD 1 0 : ℚ) / 127 } with hnt
      set L := (s1.noteTimes.getD c []).length with hL
      have hstep : (stepEvent td s e).1
          = { s1 with
              noteTimes := listModify s1.noteTimes c (fun cn => cn ++ [nt]),
              unfinishedNotes := listModify s1.unfinishedNotes c (fun u => u ++ [L]),
              unfinished := s1.unfinished + 1 } := by
        simp only [stepEvent]
        rw [if_neg h8, if_pos h9, if_neg hv]
      rw [hstep, hnext]
      have hcNT1 : c < s1.noteTimes.length := by rw [inv1.lenNT]; exact hch
      have hcUF1 : c < s1.unfinishedNotes.length := by rw [inv1.lenUF]; exact hch
      refine ⟨?_, ?_, inv1.factorPos, ?_, ?_, ?_, ?_, ?_⟩
      · show (listModify s1.noteTimes c _).length = 16
        rw [length_listModify, inv1.lenNT]
      · show (listModify s1.unfinishedNotes c _).length = 16
        rw [length_listModify, inv1.lenUF]
      · show (0 : ℚ) ≤ s1.elapsedTime
        exact inv1.elapsedNonneg
      · show s1.unfinished + 1 ≤ 0
        have h1 := hInv.ufNonpos
        rw [huf1]
        omega
      · -- openMem
        intro ch hch2 idx2 hidx2
        by_cases hcc : ch = c
        · subst hcc
          rw [getD_listModify_self _ _ _ hcUF1] at hidx2
          rcases List.mem_append.mp hidx2 with hin | hin
          · rcases inv1.openMem c hch2 idx2 hin with ⟨n3, h1, h2, h3, h4⟩
            refine ⟨n3, ?_, h2, h3, ?_⟩
            · rw [getD_listModify_self _ _ _ hcNT1,
                getElem?_append_lt (lt_of_getElem?_some h1)]
              exact h1
            · rcases h4 with h4 | ⟨h4a, h4b⟩
              · exact Or.inl h4
              · exact Or.inr ⟨List.mem_cons_of_mem _ h4a, h4b⟩
          · have hiL : idx2 = L := by simpa using hin
            subst hiL
            refine ⟨nt, ?_, rfl, ?_, ?_⟩
            · rw [getD_listModify_self _ _ _ hcNT1, hL]
              exact getElem?_append_len
            · show (0 : ℚ) ≤ s.elapsedTime
              exact hInv.elapsedNonneg
            · refine Or.inr ⟨?_, ?_⟩
              · show (nt.midiNote, c) ∈ eventPC e :: S
                have heq : (nt.midiNote, c) = eventPC e := by
                  simp [hnt, eventPC, hp, hcdef]
                rw [heq]
                exact List.mem_cons_self _ _
              · show nt.start ≤ s1.elapsedTime
                rw [helap1]
        · rw [getD_listModify_ne _ _ _ _ (fun he => hcc he.symm)] at hidx2
          rcases inv1.openMem ch hch2 idx2 hidx2 with ⟨n3, h1, h2, h3, h4⟩
          refine ⟨n3, ?_, h2, h3, ?_⟩
          · rw [getD_listModify_ne _ _ _ _ (fun he => hcc he.symm)]
            exact h1
          · rcases h4 with h4 | ⟨h4a, h4b⟩
            · exact Or.inl h4
            · exact Or.inr ⟨List.mem_cons_of_mem _ h4a, h4b⟩
      · -- closedOk
        intro ch hch2 idx2 n3 hget hnot
        by_cases hcc : ch = c
        · subst hcc
          rw [getD_listModify_self _ _ _ hcNT1] at hget
          rw [getD_listModify_self _ _ _ hcUF1] at hnot
          have hne2 : idx2 ≠ L := fun he =>
            hnot (List.mem_append.mpr (Or.inr (by rw [he]; exact List.mem_singleton_self _)))
          have hlt2 : idx2 < (s1.noteTimes.getD c []).length := by
            have h1 := lt_of_getElem?_some hget
            rw [List.length_append, List.length_singleton] at h1
            rw [hL] at hne2
            omega
          rw [getElem?_append_lt hlt2] at hget
          have hnot1 : idx2 ∉ s1.unfinishedNotes.getD c [] := fun hm =>
            hnot (List.mem_append.mpr (Or.inl hm))
          exact inv1.closedOk c hch2 idx2 n3 hget hnot1
        · rw [getD_listModify_ne _ _ _ _ (fun he => hcc he.symm)] at hget
          rw [getD_listModify_ne _ _ _ _ (fun he => hcc he.symm)] at hnot
          exact inv1.closedOk ch hch2 idx2 n3 hget hnot
      · -- openSorted
        intro ch hch2
        by_cases hcc : ch = c
        · subst hcc
          rw [getD_listModify_self _ _ _ hcUF1]
          refine pairwise_append_lt _ _ (inv1.openSorted c hch2) ?_
          intro x hx
          rcases inv1.openMem c hch2 x hx with ⟨n3, h1, _, _, _⟩
          rw [hL]
          exact lt_of_getElem?_some h1
        · rw [getD_listModify_ne _ _ _ _ (fun he => hcc he.symm)]
          exact inv1.openSorted ch hch2
  by_cases hT : e.messageStatusByte = 0x51
  · have hNote : isNoteEvent e = false := by
      simp [isNoteEvent, h8, h9]
    have hnext : nextS S e = S := by simp [nextS, hNote]
    have hstep : (stepEvent td s e).1
        = { s with oneTickToSeconds := 60 / ((getTempo e.messageData).1 * (td : ℚ)) } := by
      simp [stepEvent, h8, h9, hT]
    rw [hstep, hnext]
    have hpos : (0 : ℚ) < 60 / ((getTempo e.messageData).1 * (td : ℚ)) := by
      have hv0 : 0 < tempoPayloadVal e := htm hT
      have hv1 : (0 : ℚ) < (tempoPayloadVal e : ℚ) := by exact_mod_cast hv0
      have ht1 : (0 : ℚ) < (td : ℚ) := by exact_mod_cast htd
      have hg : (getTempo e.messageData).1 = 60000000 / (tempoPayloadVal e : ℚ) := rfl
      rw [hg]
      positivity
    exact ⟨hInv.lenNT, hInv.lenUF, hpos, hInv.elapsedNonneg, hInv.ufNonpos,
      hInv.openMem, hInv.closedOk, hInv.openSorted⟩
  · have hNote : isNoteEvent e = false := by
      simp [isNoteEvent, h8, h9]
    have hnext : nextS S e = S := by simp [nextS, hNote]
    have hstep : (stepEvent td s e).1 = s := by
      simp [stepEvent, h8, h9, hT]
    rw [hstep, hnext]
    exact hInv

/-- Advancing the clock to the next event's tick preserves the invariant;
on a strict tick increase every open note's start becomes strictly past
and the tick-group set resets. -/
theorem advance_inv (s : ExtractState) (S : List (Nat × Nat)) (t1 t2 : Nat)
    (h12 : t1 ≤ t2) (hInv : Inv s S) :
    Inv { s with elapsedTime := s.elapsedTime + s.oneTickToSeconds * ((t2 : ℚ) - (t1 : ℚ)) }
      (if t2 == t1 then S else []) := by
  by_cases heq : t2 = t1
  · have hz : s.elapsedTime + s.oneTickToSeconds * ((t2 : ℚ) - (t1 : ℚ)) = s.elapsedTime := by
      rw [heq]
      ring
    have hstate : { s with elapsedTime :=
        s.elapsedTime + s.oneTickToSeconds * ((t2 : ℚ) - (t1 : ℚ)) } = s := by
      rw [hz]
    have hcond : (t2 == t1) = true := by simp [heq]
    rw [hstate, hcond]
    exact hInv
  · have hcond : (t2 == t1) = false := by simp [heq]
    rw [hcond]
    have hlt : t1 < t2 := lt_of_le_of_ne h12 (fun he => heq he.symm)
    have hdelta : (1 : ℚ) ≤ (t2 : ℚ) - (t1 : ℚ) := by
      have h1 : t1 + 1 ≤ t2 := hlt
      have h2 : ((t1 : ℚ) + 1) ≤ (t2 : ℚ) := by exact_mod_cast h1
      linarith
    have hpos : 0 < s.oneTickToSeconds * ((t2 : ℚ) - (t1 : ℚ)) :=
      mul_pos hInv.factorPos (by linarith)
    refine ⟨hInv.lenNT, hInv.lenUF, hInv.factorPos, ?_, hInv.ufNonpos, ?_, ?_, hInv.openSorted⟩
    · show (0 : ℚ) ≤ s.elapsedTime + s.oneTickToSeconds * ((t2 : ℚ) - (t1 : ℚ))
      have := hInv.elapsedNonneg
      linarith
    · intro ch hch idx hidx
      rcases hInv.openMem ch hch idx hidx with ⟨n, h1, h2, h3, h4⟩
      refine ⟨n, h1, h2, h3, Or.inl ?_⟩
      show n.start < s.elapsedTime + s.oneTickToSeconds * ((t2 : ℚ) - (t1 : ℚ))
      rcases h4 with h4 | ⟨_, h4⟩ <;> linarith
    · intro ch hch idx n hget hnot
      exact hInv.closedOk ch hch idx n hget hnot

/-- Unpacking one step of the well-formedness predicate. -/
theorem WFrun_cons (S : List (Nat × Nat)) (e : MidiMessage) (rest : List MidiMessage)
    (h : WFrun S (e :: rest) = true) :
    (isNoteEvent e = true → (eventPC e ∉ S ∧ 2 ≤ e.messageData.data.length))
  ∧ (e.messageStatusByte = 0x51 → (0 < tempoPayloadVal e ∧ 3 ≤ e.messageData.data.length))
  ∧ (∀ e2 rest2, rest = e2 :: rest2 →
      e.ticks ≤ e2.ticks
    ∧ WFrun (if e2.ticks == e.ticks then (if isNoteEvent e then eventPC e :: S else S) else [])
        rest = true) := by
  cases rest with
  | nil =>
    rw [WFrun] at h
    simp only [Bool.and_eq_true] at h
    obtain ⟨⟨hA, hB⟩, _⟩ := h
    refine ⟨?_, ?_, ?_⟩
    · intro hn
      rw [hn] at hA
      simpa using hA
    · intro hT
      have hTb : (e.messageStatusByte == 0x51) = true := by simp [hT]
      rw [hTb] at hB
      simpa using hB
    · intro e2 rest2 h2
      cases h2
  | cons e2 rest2 =>
    rw [WFrun] at h
    simp only [Bool.and_eq_true] at h
    obtain ⟨⟨hA, hB⟩, hle, hW⟩ := h
    refine ⟨?_, ?_, ?_⟩
    · intro hn
      rw [hn] at hA
      simpa using hA
    · intro hT
      have hTb : (e.messageStatusByte == 0x51) = true := by simp [hT]
      rw [hTb] at hB
      simpa using hB
    · intro e2' rest2' heq
      injection heq with he1 he2
      subst he1
      subst he2
      refine ⟨by simpa using hle, hW⟩

/-- The invariant at the end of the pass gives `EndInv`. -/
theorem EndInv_of_Inv (s : ExtractState) (S : List (Nat × Nat)) (h : Inv s S) :
    EndInv s := by
  refine ⟨h.ufNonpos, ?_⟩
  intro ch hch n hn
  rcases List.mem_iff_getElem?.mp hn with ⟨idx, hidx⟩
  by_cases hin : idx ∈ s.unfinishedNotes.getD ch []
  · rcases h.openMem ch hch idx hin with ⟨n2, h1, h2, _, _⟩
    rw [hidx] at h1
    rw [Option.some_inj.mp h1]
    exact Or.inl h2
  · exact Or.inr (h.closedOk ch hch idx n hidx hin)

/-- Running the loop over a well-formed event stream from an invariant
state ends in a state satisfying `EndInv`. -/
theorem runEvents_inv (td : Nat) (htd : 0 < td) (events : List MidiMessage) :
    ∀ (s : ExtractState) (S : List (Nat × Nat)),
      WFrun S events = true → Inv s S → EndInv (runEvents td s events).1 := by
  induction events with
  | nil =>
    intro s S _ hInv
    exact EndInv_of_Inv s S hInv
  | cons e rest ih =>
    intro s S hwf hInv
    obtain ⟨hne, htm, hrest⟩ := WFrun_cons S e rest hwf
    have inv1 : Inv (stepEvent td s e).1 (nextS S e) :=
      stepEvent_inv td htd s S e hInv (fun h2 => (hne h2).1) (fun h2 => (htm h2).1)
    cases rest with
    | nil =>
      show EndInv (stepEvent td s e).1
      exact EndInv_of_Inv _ _ inv1
    | cons e2 rest2 =>
      obtain ⟨hle, hwf2⟩ := hrest e2 rest2 rfl
      have inv2 := advance_inv (stepEvent td s e).1 (nextS S e) e.ticks e2.ticks hle inv1
      show EndInv (runEvents td
        { (stepEvent td s e).1 with
          elapsedTime := (stepEvent td s e).1.elapsedTime
            + (stepEvent td s e).1.oneTickToSeconds
              * ((e2.ticks : ℚ) - (e.ticks : ℚ)) } (e2 :: rest2)).1
      exact ih _ _ hwf2 inv2

/-- `getD` of a replicated empty list is empty at every index. -/
theorem getD_replicate_nil (n i : Nat) :
    (List.replicate n ([] : List α)).getD i [] = [] := by
  induction n generalizing i with
  | zero => rfl
  | succ k ih =>
    cases i with
    | zero => rfl
    | succ j => exact ih j

/-- The initial loop state satisfies the invariant for an empty tick
group. -/
theorem initialState_inv (midi : BasicMIDI) (htd : 0 < midi.timeDivision) :
    Inv (initialState midi) [] := by
  refine ⟨rfl, rfl, ?_, le_refl 0, le_refl 0, ?_, ?_, ?_⟩
  · show (0 : ℚ) < 60 / (120 * (midi.timeDivision : ℚ))
    have h1 : (0 : ℚ) < (midi.timeDivision : ℚ) := by exact_mod_cast htd
    positivity
  · intro ch _ idx hidx
    rw [show (initialState midi).unfinishedNotes.getD ch [] = [] from getD_replicate_nil 16 ch]
      at hidx
    cases hidx
  · intro ch _ idx n hget _
    rw [show (initialState midi).noteTimes.getD ch [] = [] from getD_replicate_nil 16 ch]
      at hget
    cases hget
  · intro ch _
    rw [show (initialState midi).unfinishedNotes.getD ch [] = [] from getD_replicate_nil 16 ch]
    exact List.Pairwise.nil

/-- When the counter is not positive the trailing pass does nothing. -/
theorem finishUnfinished_of_nonpos (s : ExtractState) (h : s.unfinished ≤ 0) :
    finishUnfinished s = s := by
  unfold finishUnfinished
  rw [if_neg (by omega)]

/-- C3: on a well-formed document whose extraction leaves no provisional
`length = -1` interval (every note-on was matched), every produced
interval has `start ≥ 0` and `length > 0`, and on channel 9 also
`length ≥ 0.02`; moreover the 20 ms floor is applied only on channel 9 —
on any other channel the written length is exactly the raw
`elapsedSeconds - start`, even when that is not positive. -/
theorem C3_wellformed_intervals (midi : BasicMIDI) (hwf : WFdoc midi)
    (hres : ∀ ch, ch < 16 → ∀ n ∈ (getNoteTimes midi).getD ch [], n.length ≠ -1) :
    (∀ ch, ch < 16 → ∀ n ∈ (getNoteTimes midi).getD ch [],
        0 ≤ n.start ∧ 0 < n.length ∧ (ch = 9 → minNoteTime ≤ n.length))
  ∧ (∀ (t : ℚ) (ch : Nat), ch ≠ 9 → lengthAdjust t ch = t)
  ∧ (∀ t : ℚ, t < minNoteTime → lengthAdjust t 9 = minNoteTime) := by
  obtain ⟨htd, hwfrun⟩ := hwf
  have hend : EndInv (runEvents midi.timeDivision (initialState midi)
      (sortedEvents midi)).1 :=
    runEvents_inv midi.timeDivision htd (sortedEvents midi) (initialState midi) []
      hwfrun (initialState_inv midi htd)
  have hout : getNoteTimes midi
      = (runEvents midi.timeDivision (initialState midi) (sortedEvents midi)).1.noteTimes := by
    show (finishUnfinished _).noteTimes = _
    rw [finishUnfinished_of_nonpos _ hend.1]
  refine ⟨?_, ?_, ?_⟩
  · intro ch hch n hn
    have hn2 := hn
    rw [hout] at hn2
    rcases hend.2 ch hch n hn2 with h1 | h1
    · exact absurd h1 (hres ch hch n hn)
    · exact h1
  · intro t ch hch
    unfold lengthAdjust
    rw [if_neg (fun hcc => hch hcc.2)]
  · intro t ht
    unfold lengthAdjust
    rw [if_pos ⟨ht, rfl⟩]

/-- C3 witness: the spec's reference scenario satisfies the
well-formedness hypotheses, and the theorem yields positivity for its
extracted interval list. -/
theorem C3_wellformed_intervals_witness :
    WFdoc scenarioDoc
  ∧ (∀ ch, ch < 16 → ∀ n ∈ (getNoteTimes scenarioDoc).getD ch [],
      0 ≤ n.start ∧ 0 < n.length ∧ (ch = 9 → minNoteTime ≤ n.length)) := by
  have hwf : WFdoc scenarioDoc := ⟨by norm_num [scenarioDoc], by rfl⟩
  have hout : getNoteTimes scenarioDoc
      = [[{ midiNote := 60, start := 0, length := 1/2, velocity := 100/127 }],
         [], [], [], [], [], [], [], [], [], [], [], [], [], [], []] := by
    norm_num [getNoteTimes, getNoteTimesFull, finishUnfinished, finishChannel, runEvents,
      stepEvent, noteOff, findIndexFn, listModify, lengthAdjust, minNoteTime, getTempo,
      readBytesAsUintBigEndian, List.range, List.range.loop, sortedEvents, insertByTicks,
      initialState, scenarioDoc, List.replicate]
  have hres : ∀ ch, ch < 16 → ∀ n ∈ (getNoteTimes scenarioDoc).getD ch [],
      n.length ≠ -1 := by
    intro ch hch n hn
    rw [hout] at hn
    interval_cases ch <;> simp_all <;> norm_num [hn]
  exact ⟨hwf, (C3_wellformed_intervals scenarioDoc hwf hres).1⟩

end MidiPlayer
